import Mathlib

/-!
Shallow embedding of the MIWU (Multi-Input Wake-Up) driver of `embassy-npcx`
(`src/miwu.rs`), and theorems checking its natural-language specification.

Modelling conventions:
* Machine `u8` values are `Nat`, with `% 256` inserted exactly where the Rust
  `u8` arithmetic can wrap (release-mode wrapping semantics).
* Rust `assert!` failures are modelled as `Option.none`.
* One MIWU (controller, group) pair owns one 8-bit register file; the driver
  functions below are the per-group register semantics of the corresponding
  Rust methods, translated statement by statement.
* The `wkpcln` register is a hardware write-1-to-clear port into `wkpndn`:
  writing the value `1 <<< s` clears pending bit `s` and leaves every other
  pending bit alone (bits written 0 have no effect).
-/

set_option maxRecDepth 8000

namespace Miwu

/-- Constant `MIWU_COUNT` from miwu.rs. -/
def MIWU_COUNT : Nat := 3

/-- Constant `SUBGROUP_COUNT` from miwu.rs. -/
def SUBGROUP_COUNT : Nat := 8

/-- Constant `GROUP_COUNT` from miwu.rs. -/
def GROUP_COUNT : Nat := 8

/-- Constant `WUI_COUNT` from miwu.rs. -/
def WUI_COUNT : Nat := MIWU_COUNT * GROUP_COUNT * SUBGROUP_COUNT

/-- Structure `WuiMap`: the expanded (controller, group, subgroup) coordinate of a line. -/
structure WuiMap where
  miwu_n : Nat
  group : Nat
  subgroup : Nat
deriving DecidableEq, Repr

/-- Function `div_rem` from miwu.rs. -/
def div_rem (x y : Nat) : Nat × Nat := (x / y, x % y)

/-- Rust `WuiIndex::new`: compacts a coordinate into an index, with the source's
`assert!(i < WUI_COUNT as u8)` modelled as `none`.  The source computes `i`
in `u8` arithmetic, so each operation wraps modulo 256. -/
def wuiIndexNew (map : WuiMap) : Option Nat :=
  let a := map.miwu_n * SUBGROUP_COUNT % 256
  let b := a * GROUP_COUNT % 256
  let c := map.group * SUBGROUP_COUNT % 256
  let i := ((b + c) % 256 + map.subgroup) % 256
  if i < WUI_COUNT then some i else none

/-- Rust `WuiIndex::to_map`: expands an index back to a coordinate, with the
source's `assert!(miwu_n < MIWU_COUNT as u8)` modelled as `none`. -/
def wuiToMap (i : Nat) : Option WuiMap :=
  let rs := div_rem i SUBGROUP_COUNT
  let mg := div_rem rs.1 GROUP_COUNT
  if mg.1 < MIWU_COUNT then
    some { miwu_n := mg.1, group := mg.2, subgroup := rs.2 }
  else
    none

/-- Signal level (`Level` in miwu.rs). -/
inductive Level where
  | low
  | high
deriving DecidableEq, Repr

/-- Signal edge (`Edge` in miwu.rs). -/
inductive Edge where
  | any
  | falling
  | rising
deriving DecidableEq, Repr

/-- Signalling condition (`Mode` in miwu.rs). -/
inductive Mode where
  | level (l : Level)
  | edge (e : Edge)
deriving DecidableEq, Repr

/-- The 8-bit register file of one MIWU (controller, group) pair.  Each field
is the register of the same name in the PAC; `wkpndn` holds the latched
pending bits (written through the `wkpcln` write-1-to-clear port). -/
structure GroupState where
  wkenn : Nat
  wkmodn : Nat
  wkaedgn : Nat
  wkedgn : Nat
  wkinenn : Nat
  wkpndn : Nat
  wkstn : Nat
deriving DecidableEq, Repr

/-- Set bit `s` of an 8-bit register (a PAC `modify` writing a 1 field). -/
def setBit (r s : Nat) : Nat := r ||| (1 <<< s)

/-- Clear bit `s` of an 8-bit register: `r & !(1 << s)` in `u8`, the
complement taken within 8 bits. -/
def clearBit (r s : Nat) : Nat := r &&& (255 ^^^ (1 <<< s))

/-- Write a 1-bit PAC field to the value `b` (a `.variant(v)` call). -/
def writeBit (r s : Nat) (b : Bool) : Nat := if b then setBit r s else clearBit r s

/-!
One-bit PAC field encodings.  The concrete numeric values live in the external
PAC crate, not in this repository; the claims only depend on each field's
encoding being injective, so the model fixes one Bool per variant.
-/

/-- Encoding of `wkmodn::InputMode::Level`. -/
def inputModeLevel : Bool := false

/-- Encoding of `wkmodn::InputMode::Edge`. -/
def inputModeEdge : Bool := true

/-- Encoding of `wkaedgn::AnyEdge::Any`. -/
def anyEdgeAny : Bool := true

/-- Encoding of `wkaedgn::AnyEdge::Edge`. -/
def anyEdgeEdge : Bool := false

/-- Encoding of `wkedgn::Edge::LowFalling`. -/
def edgeLowFalling : Bool := false

/-- Encoding of `wkedgn::Edge::HighRising`. -/
def edgeHighRising : Bool := true

/-- Rust `WakeUp::enable`: the register semantics of the critical section in
miwu.rs, performed in the source's order: clear the line's `wkenn` bit, write
its `wkmodn` field, write its `wkaedgn` field when the mode provides one,
write its `wkedgn` field when the mode provides one, set its `wkinenn` bit,
clear its pending bit through `wkpcln`, set its `wkenn` bit. -/
def enable (mode : Mode) (s : Nat) (st : GroupState) : GroupState :=
  let spec : Bool × Option Bool × Option Bool :=
    match mode with
    | Mode.level Level.low => (inputModeLevel, none, some edgeLowFalling)
    | Mode.level Level.high => (inputModeLevel, none, some edgeHighRising)
    | Mode.edge Edge.any => (inputModeEdge, some anyEdgeAny, none)
    | Mode.edge Edge.falling => (inputModeEdge, some anyEdgeEdge, some edgeLowFalling)
    | Mode.edge Edge.rising => (inputModeEdge, some anyEdgeEdge, some edgeHighRising)
  let st1 := { st with wkenn := clearBit st.wkenn s }
  let st2 := { st1 with wkmodn := writeBit st1.wkmodn s spec.1 }
  let st3 := match spec.2.1 with
    | some v => { st2 with wkaedgn := writeBit st2.wkaedgn s v }
    | none => st2
  let st4 := match spec.2.2 with
    | some v => { st3 with wkedgn := writeBit st3.wkedgn s v }
    | none => st3
  let st5 := { st4 with wkinenn := setBit st4.wkinenn s }
  let st6 := { st5 with wkpndn := clearBit st5.wkpndn s }
  { st6 with wkenn := setBit st6.wkenn s }

/-- Rust `WakeUp::disable`: clear the line's `wkenn` bit. -/
def disable (s : Nat) (st : GroupState) : GroupState :=
  { st with wkenn := clearBit st.wkenn s }

/-- Rust `WakeUp::clear_pending`: write `1 << s` to the `wkpcln` write-1-to-clear
port, clearing pending bit `s` and nothing else. -/
def clear_pending (s : Nat) (st : GroupState) : GroupState :=
  { st with wkpndn := clearBit st.wkpndn s }

/-- Rust `WakeUp::is_high`: read the line's `wkstn` bit. -/
def is_high (s : Nat) (st : GroupState) : Bool := st.wkstn.testBit s

/-- Rust `WakeUp::is_pending`: read the line's `wkpndn` bit. -/
def is_pending (s : Nat) (st : GroupState) : Bool := st.wkpndn.testBit s

/-- Rust `Drop for WakeUpInputFuture`: `disable()` then `clear_pending()`. -/
def dropTeardown (s : Nat) (st : GroupState) : GroupState :=
  clear_pending s (disable s st)

/-- Inverse of the field encodings: read back the condition a line's
`wkmodn`/`wkaedgn`/`wkedgn` fields configure.  Level modes do not read
`wkaedgn`, and `Edge.any` does not read `wkedgn`, because the hardware
ignores those fields in those modes. -/
def decodeMode (st : GroupState) (s : Nat) : Mode :=
  if st.wkmodn.testBit s = inputModeEdge then
    if st.wkaedgn.testBit s = anyEdgeAny then Mode.edge Edge.any
    else if st.wkedgn.testBit s = edgeHighRising then Mode.edge Edge.rising
    else Mode.edge Edge.falling
  else
    if st.wkedgn.testBit s = edgeHighRising then Mode.level Level.high
    else Mode.level Level.low

/-- Rust `u8::trailing_zeros`: the position of the lowest set bit of an 8-bit
value, or 8 when the value is zero. -/
def trailingZeros8 (x : Nat) : Nat :=
  (((List.range 8).filter fun b => x.testBit b).headD 8)

/-- One step of `BitIter::next`, iterated with fuel.  Each step extracts the
lowest set bit and clears it (`self.0 &= !(1 << b)` in `u8`), stopping when
`trailing_zeros` returns 8; fuel 8 covers all eight bits. -/
def bitIterAux : Nat → Nat → List Nat
  | 0, _ => []
  | fuel + 1, x =>
    let b := trailingZeros8 x
    if b = 8 then [] else b :: bitIterAux fuel (x &&& (255 ^^^ (1 <<< b)))

/-- Rust `BitIter`: the full sequence of bit positions yielded for a snapshot. -/
def bitIter (x : Nat) : List Nat := bitIterAux 8 x

/-- The waker-slot index of a coordinate: `WuiIndex::new(map).0` as used by
`get_waker` (its inputs are always in range, so no wrap can occur). -/
def waker_index (m : WuiMap) : Nat :=
  m.miwu_n * SUBGROUP_COUNT * GROUP_COUNT + m.group * SUBGROUP_COUNT + m.subgroup

/-- Rust `on_irq(miwu_n, group)`: reads the group's pending register once as a
snapshot, wakes the waker slot of every line whose snapshot bit is set (in
`BitIter` order), then clears the snapshot's bits from the enable register in
one critical-section read-modify-write (`enable &= !pending` in `u8`).
Returns the sequence of woken waker-slot indices together with the new
register state; the pending register itself is not written. -/
def on_irq (miwu_n group : Nat) (st : GroupState) : List Nat × GroupState :=
  let pending := st.wkpndn
  let woken := (bitIter pending).map fun subgroup =>
    waker_index { miwu_n := miwu_n, group := group, subgroup := subgroup }
  (woken, { st with wkenn := st.wkenn &&& (255 ^^^ pending) })

/-- Rust `WakeUpInputFuture::poll`: registers the caller's waker in the line's
slot (`AtomicWaker::register`, last-writer-wins), then re-reads
`is_pending()`; the future is ready exactly when the pending bit is set.
The waker table is modelled as a map from slot index to the registered
waker's identity. -/
def poll (m : WuiMap) (cxWaker : Nat) (st : GroupState)
    (wakers : Nat → Option Nat) : Bool × (Nat → Option Nat) :=
  (is_pending m.subgroup st, Function.update wakers (waker_index m) (some cxWaker))

/-- The hardware latching a configured signalling condition: the line's
pending bit is set by the MIWU block itself (no software register write). -/
def hwLatch (s : Nat) (st : GroupState) : GroupState :=
  { st with wkpndn := setBit st.wkpndn s }

end Miwu

namespace Miwu

theorem testBit_255 (a : Nat) : (255 : Nat).testBit a = decide (a < 8) := by
  have h : (255 : Nat) = 2 ^ 8 - 1 := by norm_num
  rw [h, Nat.testBit_two_pow_sub_one]

theorem testBit_setBit_self (r s : Nat) : (setBit r s).testBit s = true := by
  simp [setBit, Nat.testBit_lor, Nat.shiftLeft_eq, Nat.testBit_two_pow_self]

theorem testBit_setBit_ne (r s a : Nat) (h : a ≠ s) :
    (setBit r s).testBit a = r.testBit a := by
  simp [setBit, Nat.testBit_lor, Nat.shiftLeft_eq,
    Nat.testBit_two_pow_of_ne (fun hc => h hc.symm)]

theorem testBit_clearBit_self (r s : Nat) (h : s < 8) :
    (clearBit r s).testBit s = false := by
  simp [clearBit, Nat.testBit_land, Nat.testBit_xor, Nat.shiftLeft_eq,
    Nat.testBit_two_pow_self, testBit_255, h]

theorem testBit_clearBit_ne (r s a : Nat) (ha : a < 8) (h : a ≠ s) :
    (clearBit r s).testBit a = r.testBit a := by
  simp [clearBit, Nat.testBit_land, Nat.testBit_xor, Nat.shiftLeft_eq,
    Nat.testBit_two_pow_of_ne (fun hc => h hc.symm), testBit_255, ha]

theorem testBit_land_compl (x p b : Nat) (hb : b < 8) :
    (x &&& (255 ^^^ p)).testBit b = (x.testBit b && !p.testBit b) := by
  simp [Nat.testBit_land, Nat.testBit_xor, testBit_255, hb, Bool.xor_comm]

theorem testBit_clearBit_high (r s a : Nat) (hs : s < 8) (ha : 8 ≤ a) :
    (clearBit r s).testBit a = false := by
  simp [clearBit, Nat.testBit_land, Nat.testBit_xor, Nat.shiftLeft_eq,
    Nat.testBit_two_pow_of_ne (by omega : s ≠ a), testBit_255, Nat.not_lt_of_ge ha]

/-- C1: For every line index i in [0, 192), converting the compact index to
its (controller, group, subgroup) coordinate and back yields i, the encoding
being index = controller*64 + group*8 + subgroup. -/
theorem roundtrip_toMap_new (i : Nat) (h : i < 192) :
    (wuiToMap i).bind wuiIndexNew = some i := by
  revert h; revert i; decide

/-- Witness for C1 at i = 137. -/
theorem roundtrip_toMap_new_witness :
    (137 : Nat) < 192 ∧ (wuiToMap 137).bind wuiIndexNew = some 137 :=
  ⟨by decide, roundtrip_toMap_new 137 (by decide)⟩

/-- C7 counterexample: the coordinate (0, 0, 8) has its subgroup out of range
(8 ≥ 8), yet `WuiIndex::new` does not fail fast: the assertion only checks the
combined index, which is 8 < 192, so construction silently succeeds and the
result aliases the distinct in-range line (0, 1, 0). -/
theorem new_out_of_range_subgroup_aliases :
    8 ≤ (WuiMap.mk 0 0 8).subgroup ∧
    wuiIndexNew (WuiMap.mk 0 0 8) = some 8 ∧
    wuiIndexNew (WuiMap.mk 0 1 0) = some 8 := by
  decide

/-- C7 amended: `WuiIndex::new` asserts only that the combined computed index
is < 192.  Consequently (a) every in-range coordinate (controller < 3,
group < 8, subgroup < 8) is accepted and yields the correct index
controller*64 + group*8 + subgroup, and (b) any accepted result is < 192 —
but out-of-range components whose combined index lands below 192 are not
rejected (see the counterexample). -/
theorem new_assert_guarantee (c g s : Nat) :
    (c < 3 → g < 8 → s < 8 →
      wuiIndexNew (WuiMap.mk c g s) = some (c * 64 + g * 8 + s)) ∧
    (∀ i, wuiIndexNew (WuiMap.mk c g s) = some i → i < 192) := by
  constructor
  · intro hc hg hs
    unfold wuiIndexNew
    simp only [MIWU_COUNT, SUBGROUP_COUNT, GROUP_COUNT, WUI_COUNT]
    split
    · congr 1
      omega
    · exfalso
      omega
  · intro i hi
    unfold wuiIndexNew at hi
    simp only [MIWU_COUNT, SUBGROUP_COUNT, GROUP_COUNT, WUI_COUNT] at hi
    split at hi
    · obtain rfl := Option.some_inj.mp hi
      omega
    · exact absurd hi (by simp)

/-- Witness for C7's amended theorem at (1, 2, 3). -/
theorem new_assert_guarantee_witness :
    ((1 : Nat) < 3 → (2 : Nat) < 8 → (3 : Nat) < 8 →
      wuiIndexNew (WuiMap.mk 1 2 3) = some (1 * 64 + 2 * 8 + 3)) ∧
    (∀ i, wuiIndexNew (WuiMap.mk 1 2 3) = some i → i < 192) :=
  new_assert_guarantee 1 2 3

theorem clearBit_clearBit (r s : Nat) : clearBit (clearBit r s) s = clearBit r s := by
  simp [clearBit, Nat.land_assoc]

theorem clearBit_setBit (p s : Nat) (hs : s < 8) :
    clearBit (setBit p s) s = clearBit p s := by
  apply Nat.eq_of_testBit_eq
  intro i
  rcases Nat.lt_or_ge i 8 with hi | hi
  · by_cases h : i = s
    · subst h
      rw [testBit_clearBit_self _ _ hs, testBit_clearBit_self _ _ hs]
    · rw [testBit_clearBit_ne _ _ _ hi h, testBit_clearBit_ne _ _ _ hi h,
        testBit_setBit_ne _ _ _ h]
  · rw [testBit_clearBit_high _ _ _ hs hi, testBit_clearBit_high _ _ _ hs hi]

/-- C3: Abandoning an in-progress wait (dropping the future) always leaves
the line's enable bit and pending bit clear; the disable-then-clear teardown
is idempotent and yields the same post-state whether or not the interrupt
dispatcher already fired, i.e. whether the line's enable bit was already
cleared and/or its pending bit was already set beforehand. -/
theorem dropTeardown_spec (s : Nat) (st : GroupState) (hs : s < 8) :
    (dropTeardown s st).wkenn.testBit s = false ∧
    (dropTeardown s st).wkpndn.testBit s = false ∧
    dropTeardown s (dropTeardown s st) = dropTeardown s st ∧
    dropTeardown s { st with wkenn := clearBit st.wkenn s } = dropTeardown s st ∧
    dropTeardown s { st with wkpndn := setBit st.wkpndn s } = dropTeardown s st ∧
    dropTeardown s
        { st with wkenn := clearBit st.wkenn s, wkpndn := setBit st.wkpndn s } =
      dropTeardown s st := by
  cases st
  refine ⟨?_, ?_, ?_, ?_, ?_, ?_⟩ <;>
    simp [dropTeardown, clear_pending, disable, testBit_clearBit_self _ _ hs,
      clearBit_clearBit, clearBit_setBit _ _ hs]

/-- Witness for C3 at s = 5 on a state with every bit set. -/
theorem dropTeardown_spec_witness :
    (dropTeardown 5 ⟨255, 255, 255, 255, 255, 255, 255⟩).wkenn.testBit 5 = false ∧
    (dropTeardown 5 ⟨255, 255, 255, 255, 255, 255, 255⟩).wkpndn.testBit 5 = false ∧
    dropTeardown 5 (dropTeardown 5 ⟨255, 255, 255, 255, 255, 255, 255⟩) =
      dropTeardown 5 ⟨255, 255, 255, 255, 255, 255, 255⟩ ∧
    dropTeardown 5
        { (⟨255, 255, 255, 255, 255, 255, 255⟩ : GroupState) with
            wkenn := clearBit 255 5 } =
      dropTeardown 5 ⟨255, 255, 255, 255, 255, 255, 255⟩ ∧
    dropTeardown 5
        { (⟨255, 255, 255, 255, 255, 255, 255⟩ : GroupState) with
            wkpndn := setBit 255 5 } =
      dropTeardown 5 ⟨255, 255, 255, 255, 255, 255, 255⟩ ∧
    dropTeardown 5
        { (⟨255, 255, 255, 255, 255, 255, 255⟩ : GroupState) with
            wkenn := clearBit 255 5, wkpndn := setBit 255 5 } =
      dropTeardown 5 ⟨255, 255, 255, 255, 255, 255, 255⟩ :=
  dropTeardown_spec 5 ⟨255, 255, 255, 255, 255, 255, 255⟩ (by decide)

/-- C5: `enable(condition)` performs, in one critical section and in source
order, clear-enable-bit, write mode field, write any-edge field (when the
condition provides one), write edge-polarity field (when provided), set
input-enable bit, clear pending bit, set enable bit; on return the line's
pending bit is clear, its input-enable and enable bits are set, and the
configured fields decode back to exactly the given condition. -/
theorem enable_spec (m : Mode) (s : Nat) (st : GroupState) (hs : s < 8) :
    is_pending s (enable m s st) = false ∧
    (enable m s st).wkinenn.testBit s = true ∧
    (enable m s st).wkenn.testBit s = true ∧
    decodeMode (enable m s st) s = m := by
  have hset := testBit_setBit_self
  have hclr := fun r => testBit_clearBit_self r s hs
  rcases m with l | e
  · cases l <;>
      simp [enable, is_pending, decodeMode, writeBit, inputModeLevel,
        inputModeEdge, anyEdgeAny, anyEdgeEdge, edgeLowFalling, edgeHighRising,
        hset, hclr]
  · cases e <;>
      simp [enable, is_pending, decodeMode, writeBit, inputModeLevel,
        inputModeEdge, anyEdgeAny, anyEdgeEdge, edgeLowFalling, edgeHighRising,
        hset, hclr]

/-- Witness for C5 with Edge::Rising at subgroup 3 on the all-zero state. -/
theorem enable_spec_witness :
    is_pending 3 (enable (Mode.edge Edge.rising) 3 ⟨0, 0, 0, 0, 0, 0, 0⟩) = false ∧
    (enable (Mode.edge Edge.rising) 3 ⟨0, 0, 0, 0, 0, 0, 0⟩).wkinenn.testBit 3 = true ∧
    (enable (Mode.edge Edge.rising) 3 ⟨0, 0, 0, 0, 0, 0, 0⟩).wkenn.testBit 3 = true ∧
    decodeMode (enable (Mode.edge Edge.rising) 3 ⟨0, 0, 0, 0, 0, 0, 0⟩) 3 =
      Mode.edge Edge.rising :=
  enable_spec (Mode.edge Edge.rising) 3 ⟨0, 0, 0, 0, 0, 0, 0⟩ (by decide)

/-- C6: For two distinct lines a and b in the same (controller, group),
`enable` on b with any condition leaves every register bit of line a —
enable, mode, any-edge, edge-polarity, input-enable and pending — unchanged
(the status register is not written at all). -/
theorem enable_frame (m : Mode) (a b : Nat) (st : GroupState)
    (ha : a < 8) (_hb : b < 8) (hab : a ≠ b) :
    (enable m b st).wkenn.testBit a = st.wkenn.testBit a ∧
    (enable m b st).wkmodn.testBit a = st.wkmodn.testBit a ∧
    (enable m b st).wkaedgn.testBit a = st.wkaedgn.testBit a ∧
    (enable m b st).wkedgn.testBit a = st.wkedgn.testBit a ∧
    (enable m b st).wkinenn.testBit a = st.wkinenn.testBit a ∧
    (enable m b st).wkpndn.testBit a = st.wkpndn.testBit a ∧
    (enable m b st).wkstn = st.wkstn := by
  have hset := fun r => testBit_setBit_ne r b a hab
  have hclr := fun r => testBit_clearBit_ne r b a ha hab
  rcases m with l | e
  · cases l <;>
      simp [enable, writeBit, inputModeLevel, inputModeEdge, anyEdgeAny,
        anyEdgeEdge, edgeLowFalling, edgeHighRising, hset, hclr]
  · cases e <;>
      simp [enable, writeBit, inputModeLevel, inputModeEdge, anyEdgeAny,
        anyEdgeEdge, edgeLowFalling, edgeHighRising, hset, hclr]

/-- Witness for C6: line 2 is untouched by enabling line 6 with Level::Low
on a state with every bit set. -/
theorem enable_frame_witness :
    (enable (Mode.level Level.low) 6 ⟨255, 255, 255, 255, 255, 255, 255⟩).wkenn.testBit 2 =
      (255 : Nat).testBit 2 ∧
    (enable (Mode.level Level.low) 6 ⟨255, 255, 255, 255, 255, 255, 255⟩).wkmodn.testBit 2 =
      (255 : Nat).testBit 2 ∧
    (enable (Mode.level Level.low) 6 ⟨255, 255, 255, 255, 255, 255, 255⟩).wkaedgn.testBit 2 =
      (255 : Nat).testBit 2 ∧
    (enable (Mode.level Level.low) 6 ⟨255, 255, 255, 255, 255, 255, 255⟩).wkedgn.testBit 2 =
      (255 : Nat).testBit 2 ∧
    (enable (Mode.level Level.low) 6 ⟨255, 255, 255, 255, 255, 255, 255⟩).wkinenn.testBit 2 =
      (255 : Nat).testBit 2 ∧
    (enable (Mode.level Level.low) 6 ⟨255, 255, 255, 255, 255, 255, 255⟩).wkpndn.testBit 2 =
      (255 : Nat).testBit 2 ∧
    (enable (Mode.level Level.low) 6 ⟨255, 255, 255, 255, 255, 255, 255⟩).wkstn = 255 :=
  enable_frame (Mode.level Level.low) 2 6 ⟨255, 255, 255, 255, 255, 255, 255⟩
    (by decide) (by decide) (by decide)

/-- C9: `clear_pending` clears exactly the line's own pending bit: sibling
pending bits in the group and every other register (enable, mode, any-edge,
edge-polarity, input-enable, status) are unchanged.  In the source it is a
single write to the write-1-to-clear port, outside any critical section. -/
theorem clear_pending_frame (s : Nat) (st : GroupState) (hs : s < 8) :
    (clear_pending s st).wkpndn.testBit s = false ∧
    (∀ a, a < 8 → a ≠ s → (clear_pending s st).wkpndn.testBit a = st.wkpndn.testBit a) ∧
    (clear_pending s st).wkenn = st.wkenn ∧
    (clear_pending s st).wkmodn = st.wkmodn ∧
    (clear_pending s st).wkaedgn = st.wkaedgn ∧
    (clear_pending s st).wkedgn = st.wkedgn ∧
    (clear_pending s st).wkinenn = st.wkinenn ∧
    (clear_pending s st).wkstn = st.wkstn := by
  refine ⟨testBit_clearBit_self _ _ hs, fun a ha hne => ?_, rfl, rfl, rfl, rfl, rfl, rfl⟩
  exact testBit_clearBit_ne _ _ _ ha hne

/-- Witness for C9 at s = 4 on a state with every bit set. -/
theorem clear_pending_frame_witness :
    (clear_pending 4 ⟨255, 255, 255, 255, 255, 255, 255⟩).wkpndn.testBit 4 = false ∧
    (∀ a, a < 8 → a ≠ 4 →
      (clear_pending 4 ⟨255, 255, 255, 255, 255, 255, 255⟩).wkpndn.testBit a =
        (255 : Nat).testBit a) ∧
    (clear_pending 4 ⟨255, 255, 255, 255, 255, 255, 255⟩).wkenn = 255 ∧
    (clear_pending 4 ⟨255, 255, 255, 255, 255, 255, 255⟩).wkmodn = 255 ∧
    (clear_pending 4 ⟨255, 255, 255, 255, 255, 255, 255⟩).wkaedgn = 255 ∧
    (clear_pending 4 ⟨255, 255, 255, 255, 255, 255, 255⟩).wkedgn = 255 ∧
    (clear_pending 4 ⟨255, 255, 255, 255, 255, 255, 255⟩).wkinenn = 255 ∧
    (clear_pending 4 ⟨255, 255, 255, 255, 255, 255, 255⟩).wkstn = 255 :=
  clear_pending_frame 4 ⟨255, 255, 255, 255, 255, 255, 255⟩ (by decide)

/-- C10: `enable` with Edge::Any never writes the edge-polarity register
`wkedgn`, and `enable` with a Level condition never writes the any-edge
register `wkaedgn`; the skipped register keeps its previous contents whole,
including the line's own stale field from an earlier configuration. -/
theorem enable_skips_unwritten (s : Nat) (st : GroupState) (l : Level) :
    (enable (Mode.edge Edge.any) s st).wkedgn = st.wkedgn ∧
    (enable (Mode.level l) s st).wkaedgn = st.wkaedgn := by
  cases l <;> simp [enable]

theorem bitIter_eq_filter (x : Nat) (hx : x < 256) :
    bitIter x = (List.range 8).filter fun b => x.testBit b := by
  revert hx; revert x; decide

/-- C2: one invocation of `on_irq` reads the group's pending register once as
a snapshot, wakes exactly the waker slots whose snapshot bit is set, in
ascending bit-position order and each exactly once, clears exactly the
snapshot's bits from the enable register (leaving every other enable bit
unchanged), and writes no other register — in particular no pending bit. -/
theorem on_irq_spec (c g : Nat) (st : GroupState) (hp : st.wkpndn < 256) :
    (on_irq c g st).1 =
      ((List.range 8).filter fun b => st.wkpndn.testBit b).map
        (fun b => waker_index ⟨c, g, b⟩) ∧
    List.Pairwise (· < ·) (on_irq c g st).1 ∧
    (on_irq c g st).1.Nodup ∧
    (∀ b, b < 8 →
      (waker_index ⟨c, g, b⟩ ∈ (on_irq c g st).1 ↔ st.wkpndn.testBit b = true)) ∧
    (∀ b, b < 8 → (on_irq c g st).2.wkenn.testBit b =
      (st.wkenn.testBit b && !st.wkpndn.testBit b)) ∧
    (on_irq c g st).2.wkpndn = st.wkpndn ∧
    (on_irq c g st).2.wkmodn = st.wkmodn ∧
    (on_irq c g st).2.wkaedgn = st.wkaedgn ∧
    (on_irq c g st).2.wkedgn = st.wkedgn ∧
    (on_irq c g st).2.wkinenn = st.wkinenn ∧
    (on_irq c g st).2.wkstn = st.wkstn := by
  have hbi := bitIter_eq_filter st.wkpndn hp
  have hlist : (on_irq c g st).1 =
      ((List.range 8).filter fun b => st.wkpndn.testBit b).map
        (fun b => waker_index ⟨c, g, b⟩) := by
    simp [on_irq, hbi]
  have hpair : List.Pairwise (· < ·) (on_irq c g st).1 := by
    rw [hlist, List.pairwise_map]
    refine List.Pairwise.imp ?_ (List.Pairwise.filter _ (List.pairwise_lt_range 8))
    intro a b hab
    simp only [waker_index, SUBGROUP_COUNT, GROUP_COUNT]
    omega
  refine ⟨hlist, hpair, hpair.imp Nat.ne_of_lt, ?_, ?_, rfl, rfl, rfl, rfl, rfl, rfl⟩
  · intro b hb
    rw [hlist]
    simp only [List.mem_map, List.mem_filter, List.mem_range]
    constructor
    · rintro ⟨a, ⟨ha, hta⟩, heq⟩
      have : a = b := by
        simp only [waker_index, SUBGROUP_COUNT, GROUP_COUNT] at heq
        omega
      exact this ▸ hta
    · intro htb
      exact ⟨b, ⟨hb, htb⟩, rfl⟩
  · intro b hb
    exact testBit_land_compl _ _ _ hb

/-- Witness for C2 on the snapshot 0b00100100 (bits 2 and 5 pending). -/
theorem on_irq_spec_witness :
    (on_irq 1 2 ⟨255, 17, 34, 51, 68, 36, 85⟩).1 =
      ((List.range 8).filter fun b => (36 : Nat).testBit b).map
        (fun b => waker_index ⟨1, 2, b⟩) ∧
    List.Pairwise (· < ·) (on_irq 1 2 ⟨255, 17, 34, 51, 68, 36, 85⟩).1 ∧
    (on_irq 1 2 ⟨255, 17, 34, 51, 68, 36, 85⟩).1.Nodup ∧
    (∀ b, b < 8 →
      (waker_index ⟨1, 2, b⟩ ∈ (on_irq 1 2 ⟨255, 17, 34, 51, 68, 36, 85⟩).1 ↔
        (36 : Nat).testBit b = true)) ∧
    (∀ b, b < 8 → (on_irq 1 2 ⟨255, 17, 34, 51, 68, 36, 85⟩).2.wkenn.testBit b =
      ((255 : Nat).testBit b && !(36 : Nat).testBit b)) ∧
    (on_irq 1 2 ⟨255, 17, 34, 51, 68, 36, 85⟩).2.wkpndn = 36 ∧
    (on_irq 1 2 ⟨255, 17, 34, 51, 68, 36, 85⟩).2.wkmodn = 17 ∧
    (on_irq 1 2 ⟨255, 17, 34, 51, 68, 36, 85⟩).2.wkaedgn = 34 ∧
    (on_irq 1 2 ⟨255, 17, 34, 51, 68, 36, 85⟩).2.wkedgn = 51 ∧
    (on_irq 1 2 ⟨255, 17, 34, 51, 68, 36, 85⟩).2.wkinenn = 68 ∧
    (on_irq 1 2 ⟨255, 17, 34, 51, 68, 36, 85⟩).2.wkstn = 85 :=
  on_irq_spec 1 2 ⟨255, 17, 34, 51, 68, 36, 85⟩ (by decide)

/-- C8: every poll of the wait future first registers the caller's waker in
the line's slot (replacing any previous occupant, leaving all other slots
unchanged) and then re-reads `is_pending()`; it completes exactly when the
pending bit is set and stays suspended otherwise. -/
theorem poll_spec (m : WuiMap) (cx : Nat) (st : GroupState)
    (w : Nat → Option Nat) :
    ((poll m cx st w).1 = true ↔ is_pending m.subgroup st = true) ∧
    (poll m cx st w).2 (waker_index m) = some cx ∧
    (∀ j, j ≠ waker_index m → (poll m cx st w).2 j = w j) := by
  refine ⟨Iff.rfl, ?_, ?_⟩
  · simp [poll]
  · intro j hj
    simp [poll, Function.update_noteq hj]

/-- C4 counterexample: the claim says that after `wait_for` returns normally,
`is_pending()` is true until the caller explicitly calls `clear_pending()`.
In the source, the awaited `WakeUpInputFuture` is a temporary inside
`wait_for`: when its poll returns ready it is dropped before `wait_for`
returns, and its `Drop` runs `disable()` and `clear_pending()` (the module
docs: the future clears the pending bit when polled or dropped).  Concretely,
for line (1, 2, 3) enabled with Edge::Falling from the all-zero state, after
the hardware latch and the interrupt dispatcher the poll resolves ready — yet
at `wait_for`'s return, after the future's drop teardown, the pending bit is
already false, with no caller-side `clear_pending()`. -/
theorem wait_for_return_pending_already_clear :
    (poll ⟨1, 2, 3⟩ 7
      (on_irq 1 2 (hwLatch 3 (enable (Mode.edge Edge.falling) 3 ⟨0, 0, 0, 0, 0, 0, 0⟩))).2
      (fun _ => none)).1 = true ∧
    is_pending 3
      (dropTeardown 3
        (on_irq 1 2 (hwLatch 3 (enable (Mode.edge Edge.falling) 3 ⟨0, 0, 0, 0, 0, 0, 0⟩))).2) =
      false := by
  decide

/-- C4 amended: when `wait_for` completes normally after a hardware event —
`enable(mode)`, the hardware latches the event, `on_irq` clears the enable
bit and leaves pending set — the future's poll resolves ready with the line
Pending & Disabled; then, still inside `wait_for`, the temporary future is
dropped and its teardown (`disable()` then `clear_pending()`) runs, so at
`wait_for`'s return the pending bit is already clear (no caller-side
`clear_pending()` is needed) and the enable bit is clear and stays clear
until the caller re-`enable()`s. -/
theorem wait_for_completion_teardown (m : Mode) (c g s : Nat) (st : GroupState)
    (cx : Nat) (w : Nat → Option Nat) (hs : s < 8) :
    is_pending s (on_irq c g (hwLatch s (enable m s st))).2 = true ∧
    (on_irq c g (hwLatch s (enable m s st))).2.wkenn.testBit s = false ∧
    (poll ⟨c, g, s⟩ cx (on_irq c g (hwLatch s (enable m s st))).2 w).1 = true ∧
    is_pending s (dropTeardown s (on_irq c g (hwLatch s (enable m s st))).2) = false ∧
    (dropTeardown s (on_irq c g (hwLatch s (enable m s st))).2).wkenn.testBit s =
      false := by
  refine ⟨?_, ?_, ?_, ?_, ?_⟩ <;>
    simp [on_irq, hwLatch, poll, is_pending, clear_pending, disable,
      dropTeardown, testBit_setBit_self, testBit_land_compl _ _ _ hs,
      testBit_clearBit_self _ _ hs]

/-- Witness for C4's amended theorem with Edge::Rising at line (0, 4, 6) from
a state with every bit set and an empty waker table. -/
theorem wait_for_completion_teardown_witness :
    is_pending 6
      (on_irq 0 4
        (hwLatch 6 (enable (Mode.edge Edge.rising) 6 ⟨255, 255, 255, 255, 255, 255, 255⟩))).2 =
      true ∧
    (on_irq 0 4
      (hwLatch 6
        (enable (Mode.edge Edge.rising) 6 ⟨255, 255, 255, 255, 255, 255, 255⟩))).2.wkenn.testBit 6 =
      false ∧
    (poll ⟨0, 4, 6⟩ 9
      (on_irq 0 4
        (hwLatch 6 (enable (Mode.edge Edge.rising) 6 ⟨255, 255, 255, 255, 255, 255, 255⟩))).2
      (fun _ => none)).1 = true ∧
    is_pending 6
      (dropTeardown 6
        (on_irq 0 4
          (hwLatch 6 (enable (Mode.edge Edge.rising) 6 ⟨255, 255, 255, 255, 255, 255, 255⟩))).2) =
      false ∧
    (dropTeardown 6
      (on_irq 0 4
        (hwLatch 6
          (enable (Mode.edge Edge.rising) 6 ⟨255, 255, 255, 255, 255, 255, 255⟩))).2).wkenn.testBit 6 =
      false :=
  wait_for_completion_teardown (Mode.edge Edge.rising) 0 4 6
    ⟨255, 255, 255, 255, 255, 255, 255⟩ 9 (fun _ => none) (by decide)

end Miwu
